import Mathlib

/-!
Verification of the bytemare/secp256k1 Go library against its specification.

The development shallowly embeds the library's core algorithms over `ZMod p`
(the base field) and `ZMod n` (the scalar field).  The Fiat-Crypto generated
Montgomery limb arithmetic (files `fe.go` / `scalar fiat code`, not part of the
provided sources) is modelled from the spec as exact arithmetic modulo the
respective prime, which is the contract the spec states for it ("the limbs
represent a canonical value in [0, p); arithmetic ops preserve canonicality").
Everything above that layer (scalar multiplication ladder, complete point
formulas, encodings, decodings, sqrt-ratio, wide reduction, the 3-isogeny) is
translated from the Go sources operation by operation.
-/

set_option maxRecDepth 100000

namespace Secp256k1

/-- The base field order `p = 2^256 - 2^32 - 977` (src/internal/field/element.go). -/
def p : ℕ := 115792089237316195423570985008687907853269984665640564039457584007908834671663

/-- The group order `n = 2^256 - 432420386565659656852420866394968145599` (scalar package). -/
def n : ℕ := 115792089237316195423570985008687907852837564279074904382605163141518161494337

instance : NeZero p := ⟨by decide⟩

instance : NeZero n := ⟨by decide⟩

/-- Base field elements, canonical values mod `p`. -/
abbrev Fp := ZMod p

/-- Scalar field elements, canonical values mod `n`. -/
abbrev Fn := ZMod n

/-- Fast modular exponentiation with explicit fuel (binary method), used to make
500-bit exponentiations kernel-computable. -/
def powMod (m : ℕ) : ℕ → ℕ → ℕ → ℕ
  | 0, _, _ => 1 % m
  | fuel + 1, a, e =>
    if e = 0 then 1 % m
    else
      let h := powMod m fuel (a * a % m) (e / 2)
      if e % 2 = 1 then h * a % m else h

/-! ### Bytes and limbs -/
/-- Big-endian byte-string to natural number (`binary.BigEndian` semantics). -/
def bytesToNat (bs : List ℕ) : ℕ := bs.foldl (fun acc b => 256 * acc + b) 0

/-- Big-endian encoding of a value on `len` bytes (`binary.BigEndian.PutUint64`
and friends build exactly this layout). -/
def natToBytesBE : ℕ → ℕ → List ℕ
  | 0, _ => []
  | len + 1, v => natToBytesBE len (v / 256) ++ [v % 256]

/-- A 256-bit quantity as four 64-bit limbs, least significant first, as used by
the saturated (non-Montgomery) representation of both packages. -/
structure Limbs4 where
  l0 : ℕ
  l1 : ℕ
  l2 : ℕ
  l3 : ℕ
deriving DecidableEq

/-- The integer value of a 4-limb quantity. -/
def Limbs4.val (x : Limbs4) : ℕ := x.l0 + 2 ^ 64 * x.l1 + 2 ^ 128 * x.l2 + 2 ^ 192 * x.l3

/-- `bits.Sub64`: 64-bit subtract with borrow; returns (difference, borrow-out). -/
def sub64 (x y b : ℕ) : ℕ × ℕ :=
  ((x + 2 ^ 64 - (y + b)) % 2 ^ 64, if x < y + b then 1 else 0)

/-- `BytesToNonMontgomery` (scalar package) / `bytesToInts` (field package):
32 big-endian bytes to four 64-bit limbs, least significant limb from the last
eight bytes. -/
def bytesToLimbs (input : List ℕ) : Limbs4 :=
  ⟨bytesToNat (input.drop 24), bytesToNat ((input.drop 16).take 8),
   bytesToNat ((input.drop 8).take 8), bytesToNat (input.take 8)⟩

/-- `Reduce` (both packages): conditional subtraction of the 4-limb modulus `m`
with borrow propagation; returns the selected limbs and the final borrow
(`0` iff a reduction was necessary, i.e. iff the input was `≥ m`). -/
def reduce4 (x m : Limbs4) : Limbs4 × ℕ :=
  let d0 := sub64 x.l0 m.l0 0
  let d1 := sub64 x.l1 m.l1 d0.2
  let d2 := sub64 x.l2 m.l2 d1.2
  let d3 := sub64 x.l3 m.l3 d2.2
  (if d3.2 = 1 then x else ⟨d0.1, d1.1, d2.1, d3.1⟩, d3.2)

/-- Limbs of the base field order (`order` in src/internal/field/element.go). -/
def pLimbs : Limbs4 := ⟨0xfffffffefffffc2f, 0xffffffffffffffff, 0xffffffffffffffff, 0xffffffffffffffff⟩

/-- Limbs of the group order (`Order` in the scalar package). -/
def nLimbs : Limbs4 :=
  ⟨13822214165235122497, 13451932020343611451, 18446744073709551614, 18446744073709551615⟩

/-! ### Montgomery-domain constants

The Go sources store field constants as Montgomery-domain limb quadruples
(`value · 2^256 mod q`).  `montF`/`montN` recover the canonical value so that
each constant in this file is *the* constant of the source, converted once; a
`decide`-checked lemma then identifies its canonical value. -/
/-- The inverse of `R = 2^256` modulo `p`. -/
def rInvF : Fp := (91248989341183975618893650062416139444822672217621753343178995607984094583082 : ℕ)

/-- Canonical value of a field constant stored as Montgomery limbs. -/
def montF (l0 l1 l2 l3 : ℕ) : Fp :=
  ((l0 + 2 ^ 64 * l1 + 2 ^ 128 * l2 + 2 ^ 192 * l3 : ℕ) : Fp) * rInvF

/-- The inverse of `R = 2^256` modulo `n`. -/
def rInvN : Fn := (98562742561918706241446412617699626731164144128788972284189895985653995782166 : ℕ)

/-- Canonical value of a scalar constant stored as Montgomery limbs. -/
def montN (l0 l1 l2 l3 : ℕ) : Fn :=
  ((l0 + 2 ^ 64 * l1 + 2 ^ 128 * l2 + 2 ^ 192 * l3 : ℕ) : Fn) * rInvN

/-! ### Base field primitives (src/internal/field/element.go)

The Fiat-Crypto limb routines `Add`, `Sub`, `Mul`, `Square`, `Opp`,
`ToMontgomery`, `FromMontgomery` are not among the provided sources; they are
modelled from the spec ("p-arithmetic on 4×u64 Montgomery limbs … the limbs
represent a canonical value in [0, p)") as exact arithmetic in `ZMod p`. -/
/-- `Element.Sgn0`: parity of the canonical (non-Montgomery) representative. -/
def sgn0 (e : Fp) : ℕ := e.val % 2

/-- `Element.IsZero`: `1` if the element is zero else `0`. -/
def isZeroF (e : Fp) : ℕ := if e = 0 then 1 else 0

/-- `Element.Equals` on canonical limbs. -/
def equalsF (e u : Fp) : ℕ := if e = u then 1 else 0

/-- `Element.CMove` / `Selectznz`: `u` when `c = 0`, else `v`. -/
def cmove (c : ℕ) (u v : Fp) : Fp := if c = 0 then u else v

/-- `Element.FromBytesWithReduce`: bytes → limbs → conditional reduction →
Montgomery form; returns the element and the reduction flag (`0` iff the raw
integer was not canonical). -/
def fromBytesWithReduce (input : List ℕ) : Fp × ℕ :=
  let r := reduce4 (bytesToLimbs input) pLimbs
  (((r.1.val : ℕ) : Fp), r.2)

/-- `Element.Bytes`: 32 big-endian bytes of the canonical representative. -/
def fpBytes (e : Fp) : List ℕ := natToBytesBE 32 e.val

/-- `Element.FromBytesNoReduce`: big-endian bytes (at most 32) interpreted
directly, assumed below the modulus. -/
def fromBytesNoReduce (input : List ℕ) : Fp := ((bytesToNat input : ℕ) : Fp)

/-- `k` successive squarings (the `for … t.Square(t)` loops of the generated
addition-chain code). -/
def sqIter : ℕ → Fp → Fp
  | 0, a => a
  | k + 1, a => sqIter k (a * a)

/-- `Element.Invert` (src/unnamed/part_012): the fixed 255-squaring,
15-multiplication addition chain generated by addchain, transcribed step by
step (`Square(a)` is `a * a`; the squaring loops are `sqIter`). -/
def fieldInvert (x : Fp) : Fp :=
  let t0 := x * x
  let z := t0 * t0
  let z := x * z
  let t1 := t0 * z
  let t0 := t1 * t1
  let t2 := sqIter 2 t0
  let t2 := t1 * t2
  let t2 := sqIter 4 t2
  let t0 := t0 * t2
  let t2 := sqIter 2 t0
  let t2 := t1 * t2
  let t2 := sqIter 10 t2
  let t0 := t0 * t2
  let t0 := x * t0
  let t3 := t0 * t0
  let t2 := sqIter 2 t3
  let t4 := sqIter 22 t2
  let t2 := t2 * t4
  let t4 := sqIter 20 t2
  let t3 := t3 * t4
  let t3 := sqIter 46 t3
  let t2 := t2 * t3
  let t3 := sqIter 110 t2
  let t2 := t2 * t3
  let t1 := t1 * t2
  let t1 := sqIter 23 t1
  let t0 := t0 * t1
  let t0 := sqIter 7 t0
  let t0 := z * t0
  let t0 := sqIter 3 t0
  z * t0

/-- Modelled from the spec: the scalar inversion chain (`scalar_invert.go`,
generated by the build script `addchain search "2^256 - … - 2"`) is not among
the provided sources; the spec states `invert` computes `x^(n-2)` via a fixed
addition chain for `n - 2`. -/
def scalarInvert (x : Fn) : Fn := x ^ (n - 2)

/-! ### Projective points (the `Element` type of the main package) -/
/-- A group element: projective coordinates over the base field. -/
structure Point where
  x : Fp
  y : Fp
  z : Fp
deriving DecidableEq

/-- The canonical identity `(0, 1, 0)` (`identity` global). -/
def identityPt : Point := ⟨0, 1, 0⟩

/-- `Element.Base`: the generator, from its Montgomery limb constants. -/
def basePoint : Point :=
  ⟨montF 15507633332195041431 2530505477788034779 10925531211367256732 11061375339145502536,
   montF 12780836216951778274 10231155108014310989 8121878653926228278 14933801261141951190,
   1⟩

/-- `b3 = 3·b = 21` as stored (Montgomery limbs `{90194333733, 0, 0, 0}`). -/
def b3F : Fp := montF 90194333733 0 0 0

/-- `b = 7` as stored in `Secp256Polynomial` (Montgomery limbs `{30064777911, 0, 0, 0}`). -/
def b7F : Fp := montF 30064777911 0 0 0

/-- `Element.addProjectiveComplete`: algorithm 7 of Renes–Costello–Batina,
transcribed operation for operation from src/unnamed/part_013. -/
def addProjectiveComplete (u v : Point) : Point :=
  let t0 := u.x * v.x
  let t1 := u.y * v.y
  let t2 := u.z * v.z
  let t3 := u.x + u.y
  let t4 := v.x + v.y
  let t3 := t3 * t4
  let t4 := t0 + t1
  let t3 := t3 - t4
  let t4 := u.y + u.z
  let x3 := v.y + v.z
  let t4 := t4 * x3
  let x3 := t1 + t2
  let t4 := t4 - x3
  let x3 := u.x + u.z
  let y3 := v.x + v.z
  let x3 := x3 * y3
  let y3 := t0 + t2
  let y3 := x3 - y3
  let x3 := t0 + t0
  let t0 := x3 + t0
  let t2 := b3F * t2
  let z3 := t1 + t2
  let t1 := t1 - t2
  let y3 := b3F * y3
  let x3 := t4 * y3
  let t2 := t3 * t1
  let x3 := t2 - x3
  let y3 := y3 * t0
  let t1 := t1 * z3
  let y3 := t1 + y3
  let t0 := t0 * t3
  let z3 := z3 * t4
  let z3 := z3 + t0
  ⟨x3, y3, z3⟩

/-- `Element.doubleProjectiveComplete`: algorithm 9 of Renes–Costello–Batina,
transcribed operation for operation from src/unnamed/part_013. -/
def doubleProjectiveComplete (u : Point) : Point :=
  let t0 := u.y * u.y
  let z3 := t0 + t0
  let z3 := z3 + z3
  let z3 := z3 + z3
  let t1 := u.y * u.z
  let t2 := u.z * u.z
  let t2 := b3F * t2
  let x3 := t2 * z3
  let y3 := t0 + t2
  let z3 := t1 * z3
  let t1 := t2 + t2
  let t2 := t1 + t2
  let t0 := t0 - t2
  let y3 := t0 * y3
  let y3 := x3 + y3
  let t1 := u.x * u.y
  let x3 := t0 * t1
  let x3 := x3 + x3
  ⟨x3, y3, z3⟩

/-- `Element.negate` (unconditional): negate the y coordinate. -/
def negateRaw (e : Point) : Point := ⟨e.x, -e.y, e.z⟩

/-- `Element.Negate`: identity is left unchanged, otherwise negate y. -/
def negatePt (e : Point) : Point := if e.z = 0 then e else negateRaw e

/-- `Element.add` / `Element.Add`: `nil` is a no-op, otherwise the complete
addition formula with the receiver as first operand. -/
def addPt (e : Point) (q : Option Point) : Point :=
  match q with
  | none => e
  | some v => addProjectiveComplete e v

/-- `Element.Subtract`: `nil` is a no-op, otherwise add the raw negation. -/
def subtractPt (e : Point) (q : Option Point) : Point :=
  match q with
  | none => e
  | some v => addProjectiveComplete e (negateRaw v)

/-- `Element.isEqual`: projective cross-multiplication equality test. -/
def isEqualPt (e u : Point) : ℕ :=
  (if e.x * u.z = u.x * e.z then 1 else 0) * (if e.y * u.z = u.y * e.z then 1 else 0)

/-- `Scalar.Bits`: bit `i` of the canonical representative for `i < 255`, read
limb-wise (`n[i/64] >> (i%64) & 1`); index 255 is never written by the loop
`for i := range 255` and keeps the array's zero value. -/
def scalarBits (s : Fn) (i : ℕ) : ℕ :=
  if i < 255 then s.val / 2 ^ (64 * (i / 64)) % 2 ^ 64 / 2 ^ (i % 64) % 2 else 0

/-- One pass of the Montgomery ladder state update for bit index `k`
(`r1.Add(r0); r0.Double()` when the bit is 0, symmetrically when 1),
iterated from bit 255 down to bit 0. -/
def ladder (bits : ℕ → ℕ) : ℕ → Point × Point → Point × Point
  | 0, st => st
  | k + 1, st =>
    if bits k = 0 then
      ladder bits k (doubleProjectiveComplete st.1, addProjectiveComplete st.2 st.1)
    else
      ladder bits k (addProjectiveComplete st.1 st.2, doubleProjectiveComplete st.2)

/-- `Element.Multiply`: `nil` scalar → identity; scalar one → unchanged;
otherwise the 256-iteration Montgomery ladder over `Scalar.Bits()`. -/
def multiplyPt (e : Point) (s : Option Fn) : Point :=
  match s with
  | none => identityPt
  | some k => if k = 1 then e else (ladder (scalarBits k) 256 (identityPt, e)).1

/-! ### Wide reduction from 48 bytes (`HashToFieldElement`, both packages) -/
/-- `2^192 mod p` in Montgomery form (`two192` in the field package). -/
def two192F : Fp := montF 0 0 0 4294968273

/-- `2^384 mod p` in Montgomery form (`two384` in the field package). -/
def two384F : Fp := montF 0 0 8392367050913 1

/-- `2^192 mod n` in Montgomery form (`two192` in the scalar package). -/
def two192N : Fn := montN 10328527898029845308 10739309058364017386 11342065889886772165 4624529908474429120

/-- `2^384 mod n` in Montgomery form (`two384` in the scalar package). -/
def two384N : Fn := montN 2161815027462274937 647662477280039658 2865435121925625427 4330881270917637700

/-- `Element.HashToFieldElement` (field package): prepend 16 zero bytes, split
the 64-byte buffer at offsets 16 and 40, combine with the precomputed
Montgomery constants. -/
def hashToFieldElementF (input : List ℕ) : Fp :=
  let inp := List.replicate 16 0 ++ input
  let a := fromBytesNoReduce (inp.drop 40)
  let b := fromBytesNoReduce ((inp.drop 16).take 24)
  let c := fromBytesNoReduce (inp.take 16)
  a + b * two192F + c * two384F

/-- `HashToFieldElement` (scalar package), same structure over `Fn`. -/
def hashToFieldElementN (input : List ℕ) : Fn :=
  let inp := List.replicate 16 0 ++ input
  let a : Fn := ((bytesToNat (inp.drop 40) : ℕ) : Fn)
  let b : Fn := ((bytesToNat ((inp.drop 16).take 24) : ℕ) : Fn)
  let c : Fn := ((bytesToNat (inp.take 16) : ℕ) : Fn)
  a + b * two192N + c * two384N

/-! ### Scalar decoding (src/scalar.go) -/
/-- The three error values of `Scalar.Decode`. -/
inductive ScalarError where
  | nilOrEmpty
  | invalidLength
  | tooBig
deriving DecidableEq

/-- `ReduceBytes` (scalar package): bytes → limbs → conditional reduction →
Montgomery form, returning the scalar and the reduction flag. -/
def reduceBytes (input : List ℕ) : Fn × ℕ :=
  let r := reduce4 (bytesToLimbs input) nLimbs
  (((r.1.val : ℕ) : Fn), r.2)

/-- `Scalar.Decode`: length switch (0 → nil error, 32 → proceed, otherwise
length error), then `ReduceBytes` whose flag 0 signals a non-canonical value. -/
def scalarDecode (input : List ℕ) : Except ScalarError Fn :=
  if input.length = 0 then .error .nilOrEmpty
  else if input.length ≠ 32 then .error .invalidLength
  else if (reduceBytes input).2 = 0 then .error .tooBig
  else .ok (reduceBytes input).1

/-! ### The curve invariant and the complete formulas (C4) -/
/-- The projective on-curve predicate `Y^2·Z = X^3 + 7·Z^3`. -/
def onCurveInv (e : Point) : Prop := e.y ^ 2 * e.z = e.x ^ 3 + 7 * e.z ^ 3

instance (e : Point) : Decidable (onCurveInv e) := by
  unfold onCurveInv
  infer_instance

/-! ### Affine conversion and encodings (src/unnamed/part_013) -/
/-- `Element.affine`: invert `Z` (the chain maps 0 to 0), scale, and select the
sentinel affine pair `(0, 1)` when `Z = 0`. Returns the `(x, y)` pair. -/
def affinePt (e : Point) : Fp × Fp :=
  let isZero := isZeroF e.z
  let zinv := fieldInvert e.z
  (cmove isZero (zinv * e.x) identityPt.x, cmove isZero (zinv * e.y) identityPt.y)

/-- `Element.Encode`: single byte `0x00` for the identity, else the parity
prefix `0x02`/`0x03` followed by the 32 affine-x bytes. -/
def encodeEl (e : Point) : List ℕ :=
  let isIdentity := isZeroF e.z
  let a := affinePt e
  let ySign := if sgn0 a.2 = 1 then 3 else 2
  let first := if isIdentity = 1 then 0 else ySign
  let rest := if isIdentity = 1 then List.replicate 32 0 else fpBytes a.1
  let del := if isIdentity = 1 then 1 else 33
  (first :: rest).take del

/-- `Element.XCoordinate`: `Encode()` without its first byte. -/
def xCoordinate (e : Point) : List ℕ := (encodeEl e).drop 1

/-- `Element.fillUncompressed` / `EncodeUncompressed`: `0x04 || x || y`. -/
def fillUncompressed (e : Point) : List ℕ :=
  let a := affinePt e
  4 :: (fpBytes a.1 ++ fpBytes a.2)

/-! ### Square-root ratio (src/internal/field/element.go, `SqrtRatio`) -/
/-- The exponent `(p - 3) / 4` used by the generated chain. -/
def pMin3Div4 : ℕ := 28948022309329048855892746252171976963317496166410141009864396001977208667915

/-- Modelled from the spec: the chain file `fe_expPMin3Div4.go` (generated by
the build script for the exponent `(p-3)/4`) is not among the provided
sources; the spec states it is a fixed-chain exponentiation by `(p-3)/4`. -/
def expPMin3Div4 (x : Fp) : Fp := x ^ pMin3Div4

/-- `c2 = sqrt(-Z)` with `Z = -11`, from its Montgomery limbs. -/
def c2F : Fp := montF 10660218062043021626 12685808213265501903 5194980534593283555 4353995932822220413

/-- `Element.SqrtRatio`: RFC 9380 §F.2.1.2 optimised square-root of a ratio
for `p ≡ 3 mod 4`, transcribed line by line. -/
def sqrtRatio (u v : Fp) : Fp × ℕ :=
  let tv1 := v * v
  let tv2 := u * v
  let tv1 := tv1 * tv2
  let y1 := expPMin3Div4 tv1
  let y1 := y1 * tv2
  let y2 := y1 * c2F
  let tv3 := y1 * y1
  let tv3 := tv3 * v
  let isQR := equalsF tv3 u
  (cmove isQR y2 y1, isQR)

/-- `k_(1,0)` of RFC 9380 §E.1, from its stored Montgomery limbs. -/
def k10F : Fp := montF 253880346804 0 0 0

/-- `k_(1,1)`. -/
def k11F : Fp := montF 15401556054675218246 3224699913824136141 5815130584626317824 16947662544290920057

/-- `k_(1,2)`. -/
def k12F : Fp := montF 5242624389536649661 6503044766135799011 13715044361241875287 702316956669180165

/-- `k_(1,3)`. -/
def k13F : Fp := montF 477218697 0 0 0

/-- `k_(2,0)`. -/
def k20F : Fp := montF 10013643957699995642 13279921378413469365 9434573195234168324 14865030926825602763

/-- `k_(2,1)`. -/
def k21F : Fp := montF 10290131358410743717 3187170674093536253 12754934808919567890 6320852610022621491

/-- `k_(3,0)`. -/
def k30F : Fp := montF 18446743860074648259 18446744073709551615 18446744073709551615 18446744073709551615

/-- `k_(3,1)`. -/
def k31F : Fp := montF 13429969373273428526 5674984992785315314 2875401403253613739 12950111799174569234

/-- `k_(3,2)`. -/
def k32F : Fp := montF 11844684229475616502 12474894419922675313 16080894217475713451 9574530515189365890

/-- `k_(3,3)`. -/
def k33F : Fp := montF 159072899 0 0 0

/-- `k_(4,0)`. -/
def k40F : Fp := montF 18446740822418568955 18446744073709551615 18446744073709551615 18446744073709551615

/-- `k_(4,1)`. -/
def k41F : Fp := montF 11594187807980371856 2946275987821304864 9856975511992953358 7701604633057705058

/-- `k_(4,2)`. -/
def k42F : Fp := montF 6211825002908823904 4780756011140304380 9909030176524576027 257906878179156429

/-- `IsogenySecp256k13iso`, transcribed operation for operation. Note the
source checks the x-denominator for zero *after* inverting it (sound because
the chain maps 0 to 0 and nonzero elements to nonzero inverses), and the
y-denominator before inverting it. -/
def isogenySecp256k13iso (e : Point) : Point :=
  let x2 := e.x * e.x
  let x3 := x2 * e.x
  let xNum := k13F * x3 + k12F * x2
  let xNum := xNum + k11F * e.x
  let xNum := xNum + k10F
  let xDen := x2 + k21F * e.x
  let xDen := xDen + k20F
  let xDen := fieldInvert xDen
  let isIdentity := isZeroF xDen
  let yNum := k33F * x3 + k32F * x2
  let yNum := yNum + k31F * e.x
  let yNum := yNum + k30F
  let yDen := x3 + k42F * x2
  let yDen := yDen + k41F * e.x
  let yDen := yDen + k40F
  let isIdentity := isIdentity ||| isZeroF yDen
  let yDen := fieldInvert yDen
  let x := xNum * xDen
  let y := e.y * yNum
  let y := y * yDen
  ⟨cmove isIdentity x 0, cmove isIdentity y 1, cmove isIdentity 1 0⟩

/-! ### Decoding (src/unnamed/part_013) and the encode/decode round trip (C2) -/
/-- `Scalar.Encode`: 32 big-endian bytes of the canonical representative. -/
def scalarEncode (s : Fn) : List ℕ := natToBytesBE 32 s.val

/-- `Secp256Polynomial`: `y² = x³ + b` with `b = 7` in stored Montgomery form. -/
def secp256Polynomial (x : Fp) : Fp := x * x * x + b7F

/-- `Element.DecodeCompressed`: length and prefix checks, canonical x, square
root of `x³+7` via `SqrtRatio`, then sign selection by the prefix parity. -/
def decodeCompressed (data : List ℕ) : Option Point :=
  if data.length ≠ 33 then none
  else if data.headI ≠ 2 ∧ data.headI ≠ 3 then none
  else if (fromBytesWithReduce (data.drop 1)).2 = 0 then none
  else if (sqrtRatio (secp256Polynomial (fromBytesWithReduce (data.drop 1)).1) 1).2 ≠ 1 then none
  else
    some ⟨(fromBytesWithReduce (data.drop 1)).1,
      cmove (sgn0 (sqrtRatio (secp256Polynomial (fromBytesWithReduce (data.drop 1)).1) 1).1
          ^^^ data.headI % 2)
        (sqrtRatio (secp256Polynomial (fromBytesWithReduce (data.drop 1)).1) 1).1
        (-(sqrtRatio (secp256Polynomial (fromBytesWithReduce (data.drop 1)).1) 1).1),
      1⟩

/-- `Element.DecodeCoordinates`: both coordinates canonical and on the curve. -/
def decodeCoordinates (xb yb : List ℕ) : Option Point :=
  let fx := fromBytesWithReduce xb
  if fx.2 = 0 then none
  else
    let fy := fromBytesWithReduce yb
    if fy.2 = 0 then none
    else if equalsF (secp256Polynomial fx.1) (fy.1 * fy.1) ≠ 1 then none
    else some ⟨fx.1, fy.1, 1⟩

/-- `Element.DecodeUncompressed`. -/
def decodeUncompressed (data : List ℕ) : Option Point :=
  if data.length ≠ 65 then none
  else if data.headI ≠ 4 then none
  else decodeCoordinates ((data.drop 1).take 32) (data.drop 33)

/-- `Element.Decode`: dispatch on the public length. -/
def elementDecode (data : List ℕ) : Option Point :=
  if data.length = 1 then
    if data.headI ≠ 0 then none else some identityPt
  else if data.length = 33 then decodeCompressed data
  else if data.length = 65 then decodeUncompressed data
  else none

theorem p_eq : p = 2 ^ 256 - 2 ^ 32 - 977 := by decide

theorem n_ne_p : n ≠ p := by decide

theorem powMod_correct (m : ℕ) : ∀ fuel a e, e < 2 ^ fuel →
    (powMod m fuel a e : ZMod m) = (a : ZMod m) ^ e := by
  intro fuel
  induction fuel with
  | zero =>
    intro a e he
    interval_cases e
    simp [powMod, ZMod.natCast_mod]
  | succ f ih =>
    intro a e he
    rw [powMod]
    by_cases h0 : e = 0
    · subst h0; simp [ZMod.natCast_mod]
    · simp only [h0, if_false]
      have hlt : e / 2 < 2 ^ f := by
        have hpow : (2 : ℕ) ^ (f + 1) = 2 ^ f * 2 := pow_succ 2 f
        omega
      have hrec := ih (a * a % m) (e / 2) hlt
      have hsq : ((a * a % m : ℕ) : ZMod m) = (a : ZMod m) ^ 2 := by
        rw [ZMod.natCast_mod]; push_cast; ring
      have hh : ((powMod m f (a * a % m) (e / 2) : ℕ) : ZMod m)
          = (a : ZMod m) ^ (2 * (e / 2)) := by
        rw [hrec, hsq, ← pow_mul]
      by_cases hpar : e % 2 = 1
      · have he2 : 2 * (e / 2) + 1 = e := by omega
        simp only [hpar, if_true]
        rw [ZMod.natCast_mod, Nat.cast_mul, hh, ← pow_succ, he2]
      · have he2 : 2 * (e / 2) = e := by omega
        simp only [hpar, if_false]
        rw [hh, he2]

theorem zmodPow_eq_powMod (m a e : ℕ) (he : e < 2 ^ 256) :
    ((a : ℕ) : ZMod m) ^ e = ((powMod m 256 a e : ℕ) : ZMod m) :=
  (powMod_correct m 256 a e he).symm

/-! ### Primality of the base field order

`p` is proved prime through a chain of Lucas certificates
(`lucas_primality`): a primitive root is exhibited for every composite level
and every prime divisor of the corresponding `q - 1` is enumerated from its
complete factorisation; leaves small enough for `norm_num` are closed there.
All modular exponentiations run through `powMod`. -/
theorem prime_2 : Nat.Prime 2 := by norm_num

theorem prime_3 : Nat.Prime 3 := by norm_num

theorem prime_7 : Nat.Prime 7 := by norm_num

theorem prime_13441 : Nat.Prime 13441 := by norm_num

theorem prime_5 : Nat.Prime 5 := by norm_num

theorem prime_29 : Nat.Prime 29 := by norm_num

theorem prime_31 : Nat.Prime 31 := by norm_num

theorem prime_7723 : Nat.Prime 7723 := by norm_num

theorem prime_5323 : Nat.Prime 5323 := by norm_num

theorem prime_2621 : Nat.Prime 2621 := by norm_num

theorem prime_24809 : Nat.Prime 24809 := by norm_num

theorem prime_971 : Nat.Prime 971 := by norm_num

theorem prime_1373 : Nat.Prime 1373 := by norm_num

theorem prime_13331831 : Nat.Prime 13331831 := by
  refine lucas_primality _ ((13 : ℕ) : ZMod 13331831) ?_ ?_
  · rw [zmodPow_eq_powMod _ _ _ (by decide)]
    decide
  · intro q hq hdvd
    have hfact : 13331831 - 1 = 2 * 5 * 971 * 1373 := by decide
    rw [hfact] at hdvd
    have hcase : q = 2 ∨ q = 5 ∨ q = 971 ∨ q = 1373 := by
      rcases (Nat.Prime.dvd_mul hq).mp hdvd with h3 | h3
      · rcases (Nat.Prime.dvd_mul hq).mp h3 with h2 | h2
        · rcases (Nat.Prime.dvd_mul hq).mp h2 with h1 | h1
          · have := (Nat.prime_dvd_prime_iff_eq hq prime_2).mp h1
            tauto
          · have := (Nat.prime_dvd_prime_iff_eq hq prime_5).mp h1
            tauto
        · have := (Nat.prime_dvd_prime_iff_eq hq prime_971).mp h2
          tauto
      · have := (Nat.prime_dvd_prime_iff_eq hq prime_1373).mp h3
        tauto
    rcases hcase with hc0 | hc1 | hc2 | hc3
    all_goals subst_vars
    all_goals rw [zmodPow_eq_powMod _ _ _ (by decide)]
    all_goals decide

theorem prime_173378833005251801 : Nat.Prime 173378833005251801 := by
  refine lucas_primality _ ((6 : ℕ) : ZMod 173378833005251801) ?_ ?_
  · rw [zmodPow_eq_powMod _ _ _ (by decide)]
    decide
  · intro q hq hdvd
    have hfact : 173378833005251801 - 1 = 2 ^ 3 * 5 ^ 2 * 2621 * 24809 * 13331831 := by decide
    rw [hfact] at hdvd
    have hcase : q = 2 ∨ q = 5 ∨ q = 2621 ∨ q = 24809 ∨ q = 13331831 := by
      rcases (Nat.Prime.dvd_mul hq).mp hdvd with h4 | h4
      · rcases (Nat.Prime.dvd_mul hq).mp h4 with h3 | h3
        · rcases (Nat.Prime.dvd_mul hq).mp h3 with h2 | h2
          · rcases (Nat.Prime.dvd_mul hq).mp h2 with h1 | h1
            · have := (Nat.prime_dvd_prime_iff_eq hq prime_2).mp (hq.dvd_of_dvd_pow h1)
              tauto
            · have := (Nat.prime_dvd_prime_iff_eq hq prime_5).mp (hq.dvd_of_dvd_pow h1)
              tauto
          · have := (Nat.prime_dvd_prime_iff_eq hq prime_2621).mp h2
            tauto
        · have := (Nat.prime_dvd_prime_iff_eq hq prime_24809).mp h3
          tauto
      · have := (Nat.prime_dvd_prime_iff_eq hq prime_13331831).mp h4
        tauto
    rcases hcase with hc0 | hc1 | hc2 | hc3 | hc4
    all_goals subst_vars
    all_goals rw [zmodPow_eq_powMod _ _ _ (by decide)]
    all_goals decide

theorem prime_22149492674086928081353 : Nat.Prime 22149492674086928081353 := by
  refine lucas_primality _ ((5 : ℕ) : ZMod 22149492674086928081353) ?_ ?_
  · rw [zmodPow_eq_powMod _ _ _ (by decide)]
    decide
  · intro q hq hdvd
    have hfact : 22149492674086928081353 - 1 = 2 ^ 3 * 3 * 5323 * 173378833005251801 := by decide
    rw [hfact] at hdvd
    have hcase : q = 2 ∨ q = 3 ∨ q = 5323 ∨ q = 173378833005251801 := by
      rcases (Nat.Prime.dvd_mul hq).mp hdvd with h3 | h3
      · rcases (Nat.Prime.dvd_mul hq).mp h3 with h2 | h2
        · rcases (Nat.Prime.dvd_mul hq).mp h2 with h1 | h1
          · have := (Nat.prime_dvd_prime_iff_eq hq prime_2).mp (hq.dvd_of_dvd_pow h1)
            tauto
          · have := (Nat.prime_dvd_prime_iff_eq hq prime_3).mp h1
            tauto
        · have := (Nat.prime_dvd_prime_iff_eq hq prime_5323).mp h2
          tauto
      · have := (Nat.prime_dvd_prime_iff_eq hq prime_173378833005251801).mp h3
        tauto
    rcases hcase with hc0 | hc1 | hc2 | hc3
    all_goals subst_vars
    all_goals rw [zmodPow_eq_powMod _ _ _ (by decide)]
    all_goals decide

theorem prime_132896956044521568488119 : Nat.Prime 132896956044521568488119 := by
  refine lucas_primality _ ((6 : ℕ) : ZMod 132896956044521568488119) ?_ ?_
  · rw [zmodPow_eq_powMod _ _ _ (by decide)]
    decide
  · intro q hq hdvd
    have hfact : 132896956044521568488119 - 1 = 2 * 3 * 22149492674086928081353 := by decide
    rw [hfact] at hdvd
    have hcase : q = 2 ∨ q = 3 ∨ q = 22149492674086928081353 := by
      rcases (Nat.Prime.dvd_mul hq).mp hdvd with h2 | h2
      · rcases (Nat.Prime.dvd_mul hq).mp h2 with h1 | h1
        · have := (Nat.prime_dvd_prime_iff_eq hq prime_2).mp h1
          tauto
        · have := (Nat.prime_dvd_prime_iff_eq hq prime_3).mp h1
          tauto
      · have := (Nat.prime_dvd_prime_iff_eq hq prime_22149492674086928081353).mp h2
        tauto
    rcases hcase with hc0 | hc1 | hc2
    all_goals subst_vars
    all_goals rw [zmodPow_eq_powMod _ _ _ (by decide)]
    all_goals decide

theorem prime_11 : Nat.Prime 11 := by norm_num

theorem prime_1627 : Nat.Prime 1627 := by norm_num

theorem prime_2657 : Nat.Prime 2657 := by norm_num

theorem prime_4423 : Nat.Prime 4423 := by norm_num

theorem prime_41201 : Nat.Prime 41201 := by norm_num

theorem prime_96557 : Nat.Prime 96557 := by norm_num

theorem prime_20113 : Nat.Prime 20113 := by norm_num

theorem prime_1206781 : Nat.Prime 1206781 := by
  refine lucas_primality _ ((10 : ℕ) : ZMod 1206781) ?_ ?_
  · rw [zmodPow_eq_powMod _ _ _ (by decide)]
    decide
  · intro q hq hdvd
    have hfact : 1206781 - 1 = 2 ^ 2 * 3 * 5 * 20113 := by decide
    rw [hfact] at hdvd
    have hcase : q = 2 ∨ q = 3 ∨ q = 5 ∨ q = 20113 := by
      rcases (Nat.Prime.dvd_mul hq).mp hdvd with h3 | h3
      · rcases (Nat.Prime.dvd_mul hq).mp h3 with h2 | h2
        · rcases (Nat.Prime.dvd_mul hq).mp h2 with h1 | h1
          · have := (Nat.prime_dvd_prime_iff_eq hq prime_2).mp (hq.dvd_of_dvd_pow h1)
            tauto
          · have := (Nat.prime_dvd_prime_iff_eq hq prime_3).mp h1
            tauto
        · have := (Nat.prime_dvd_prime_iff_eq hq prime_5).mp h2
          tauto
      · have := (Nat.prime_dvd_prime_iff_eq hq prime_20113).mp h3
        tauto
    rcases hcase with hc0 | hc1 | hc2 | hc3
    all_goals subst_vars
    all_goals rw [zmodPow_eq_powMod _ _ _ (by decide)]
    all_goals decide

theorem prime_7240687 : Nat.Prime 7240687 := by
  refine lucas_primality _ ((3 : ℕ) : ZMod 7240687) ?_ ?_
  · rw [zmodPow_eq_powMod _ _ _ (by decide)]
    decide
  · intro q hq hdvd
    have hfact : 7240687 - 1 = 2 * 3 * 1206781 := by decide
    rw [hfact] at hdvd
    have hcase : q = 2 ∨ q = 3 ∨ q = 1206781 := by
      rcases (Nat.Prime.dvd_mul hq).mp hdvd with h2 | h2
      · rcases (Nat.Prime.dvd_mul hq).mp h2 with h1 | h1
        · have := (Nat.prime_dvd_prime_iff_eq hq prime_2).mp h1
          tauto
        · have := (Nat.prime_dvd_prime_iff_eq hq prime_3).mp h1
          tauto
      · have := (Nat.prime_dvd_prime_iff_eq hq prime_1206781).mp h2
        tauto
    rcases hcase with hc0 | hc1 | hc2
    all_goals subst_vars
    all_goals rw [zmodPow_eq_powMod _ _ _ (by decide)]
    all_goals decide

theorem prime_53 : Nat.Prime 53 := by norm_num

theorem prime_107590001 : Nat.Prime 107590001 := by
  refine lucas_primality _ ((3 : ℕ) : ZMod 107590001) ?_ ?_
  · rw [zmodPow_eq_powMod _ _ _ (by decide)]
    decide
  · intro q hq hdvd
    have hfact : 107590001 - 1 = 2 ^ 4 * 5 ^ 4 * 7 * 29 * 53 := by decide
    rw [hfact] at hdvd
    have hcase : q = 2 ∨ q = 5 ∨ q = 7 ∨ q = 29 ∨ q = 53 := by
      rcases (Nat.Prime.dvd_mul hq).mp hdvd with h4 | h4
      · rcases (Nat.Prime.dvd_mul hq).mp h4 with h3 | h3
        · rcases (Nat.Prime.dvd_mul hq).mp h3 with h2 | h2
          · rcases (Nat.Prime.dvd_mul hq).mp h2 with h1 | h1
            · have := (Nat.prime_dvd_prime_iff_eq hq prime_2).mp (hq.dvd_of_dvd_pow h1)
              tauto
            · have := (Nat.prime_dvd_prime_iff_eq hq prime_5).mp (hq.dvd_of_dvd_pow h1)
              tauto
          · have := (Nat.prime_dvd_prime_iff_eq hq prime_7).mp h2
            tauto
        · have := (Nat.prime_dvd_prime_iff_eq hq prime_29).mp h3
          tauto
      · have := (Nat.prime_dvd_prime_iff_eq hq prime_53).mp h4
        tauto
    rcases hcase with hc0 | hc1 | hc2 | hc3 | hc4
    all_goals subst_vars
    all_goals rw [zmodPow_eq_powMod _ _ _ (by decide)]
    all_goals decide

theorem prime_255515944373312847190720520512484175977 : Nat.Prime 255515944373312847190720520512484175977 := by
  refine lucas_primality _ ((3 : ℕ) : ZMod 255515944373312847190720520512484175977) ?_ ?_
  · rw [zmodPow_eq_powMod _ _ _ (by decide)]
    decide
  · intro q hq hdvd
    have hfact : 255515944373312847190720520512484175977 - 1 = 2 ^ 3 * 7 ^ 2 * 11 * 1627 * 2657 * 4423 * 41201 * 96557 * 7240687 * 107590001 := by decide
    rw [hfact] at hdvd
    have hcase : q = 2 ∨ q = 7 ∨ q = 11 ∨ q = 1627 ∨ q = 2657 ∨ q = 4423 ∨ q = 41201 ∨ q = 96557 ∨ q = 7240687 ∨ q = 107590001 := by
      rcases (Nat.Prime.dvd_mul hq).mp hdvd with h9 | h9
      · rcases (Nat.Prime.dvd_mul hq).mp h9 with h8 | h8
        · rcases (Nat.Prime.dvd_mul hq).mp h8 with h7 | h7
          · rcases (Nat.Prime.dvd_mul hq).mp h7 with h6 | h6
            · rcases (Nat.Prime.dvd_mul hq).mp h6 with h5 | h5
              · rcases (Nat.Prime.dvd_mul hq).mp h5 with h4 | h4
                · rcases (Nat.Prime.dvd_mul hq).mp h4 with h3 | h3
                  · rcases (Nat.Prime.dvd_mul hq).mp h3 with h2 | h2
                    · rcases (Nat.Prime.dvd_mul hq).mp h2 with h1 | h1
                      · have := (Nat.prime_dvd_prime_iff_eq hq prime_2).mp (hq.dvd_of_dvd_pow h1)
                        tauto
                      · have := (Nat.prime_dvd_prime_iff_eq hq prime_7).mp (hq.dvd_of_dvd_pow h1)
                        tauto
                    · have := (Nat.prime_dvd_prime_iff_eq hq prime_11).mp h2
                      tauto
                  · have := (Nat.prime_dvd_prime_iff_eq hq prime_1627).mp h3
                    tauto
                · have := (Nat.prime_dvd_prime_iff_eq hq prime_2657).mp h4
                  tauto
              · have := (Nat.prime_dvd_prime_iff_eq hq prime_4423).mp h5
                tauto
            · have := (Nat.prime_dvd_prime_iff_eq hq prime_41201).mp h6
              tauto
          · have := (Nat.prime_dvd_prime_iff_eq hq prime_96557).mp h7
            tauto
        · have := (Nat.prime_dvd_prime_iff_eq hq prime_7240687).mp h8
          tauto
      · have := (Nat.prime_dvd_prime_iff_eq hq prime_107590001).mp h9
        tauto
    rcases hcase with hc0 | hc1 | hc2 | hc3 | hc4 | hc5 | hc6 | hc7 | hc8 | hc9
    all_goals subst_vars
    all_goals rw [zmodPow_eq_powMod _ _ _ (by decide)]
    all_goals decide

theorem prime_205115282021455665897114700593932402728804164701536103180137503955397371 : Nat.Prime 205115282021455665897114700593932402728804164701536103180137503955397371 := by
  refine lucas_primality _ ((10 : ℕ) : ZMod 205115282021455665897114700593932402728804164701536103180137503955397371) ?_ ?_
  · rw [zmodPow_eq_powMod _ _ _ (by decide)]
    decide
  · intro q hq hdvd
    have hfact : 205115282021455665897114700593932402728804164701536103180137503955397371 - 1 = 2 * 3 * 5 * 29 ^ 2 * 31 * 7723 * 132896956044521568488119 * 255515944373312847190720520512484175977 := by decide
    rw [hfact] at hdvd
    have hcase : q = 2 ∨ q = 3 ∨ q = 5 ∨ q = 29 ∨ q = 31 ∨ q = 7723 ∨ q = 132896956044521568488119 ∨ q = 255515944373312847190720520512484175977 := by
      rcases (Nat.Prime.dvd_mul hq).mp hdvd with h7 | h7
      · rcases (Nat.Prime.dvd_mul hq).mp h7 with h6 | h6
        · rcases (Nat.Prime.dvd_mul hq).mp h6 with h5 | h5
          · rcases (Nat.Prime.dvd_mul hq).mp h5 with h4 | h4
            · rcases (Nat.Prime.dvd_mul hq).mp h4 with h3 | h3
              · rcases (Nat.Prime.dvd_mul hq).mp h3 with h2 | h2
                · rcases (Nat.Prime.dvd_mul hq).mp h2 with h1 | h1
                  · have := (Nat.prime_dvd_prime_iff_eq hq prime_2).mp h1
                    tauto
                  · have := (Nat.prime_dvd_prime_iff_eq hq prime_3).mp h1
                    tauto
                · have := (Nat.prime_dvd_prime_iff_eq hq prime_5).mp h2
                  tauto
              · have := (Nat.prime_dvd_prime_iff_eq hq prime_29).mp (hq.dvd_of_dvd_pow h3)
                tauto
            · have := (Nat.prime_dvd_prime_iff_eq hq prime_31).mp h4
              tauto
          · have := (Nat.prime_dvd_prime_iff_eq hq prime_7723).mp h5
            tauto
        · have := (Nat.prime_dvd_prime_iff_eq hq prime_132896956044521568488119).mp h6
          tauto
      · have := (Nat.prime_dvd_prime_iff_eq hq prime_255515944373312847190720520512484175977).mp h7
        tauto
    rcases hcase with hc0 | hc1 | hc2 | hc3 | hc4 | hc5 | hc6 | hc7
    all_goals subst_vars
    all_goals rw [zmodPow_eq_powMod _ _ _ (by decide)]
    all_goals decide

theorem p_prime : Nat.Prime p := by
  refine lucas_primality _ ((3 : ℕ) : ZMod p) ?_ ?_
  · rw [zmodPow_eq_powMod _ _ _ (by decide)]
    decide
  · intro q hq hdvd
    have hfact : p - 1 = 2 * 3 * 7 * 13441 * 205115282021455665897114700593932402728804164701536103180137503955397371 := by decide
    rw [hfact] at hdvd
    have hcase : q = 2 ∨ q = 3 ∨ q = 7 ∨ q = 13441 ∨ q = 205115282021455665897114700593932402728804164701536103180137503955397371 := by
      rcases (Nat.Prime.dvd_mul hq).mp hdvd with h4 | h4
      · rcases (Nat.Prime.dvd_mul hq).mp h4 with h3 | h3
        · rcases (Nat.Prime.dvd_mul hq).mp h3 with h2 | h2
          · rcases (Nat.Prime.dvd_mul hq).mp h2 with h1 | h1
            · have := (Nat.prime_dvd_prime_iff_eq hq prime_2).mp h1
              tauto
            · have := (Nat.prime_dvd_prime_iff_eq hq prime_3).mp h1
              tauto
          · have := (Nat.prime_dvd_prime_iff_eq hq prime_7).mp h2
            tauto
        · have := (Nat.prime_dvd_prime_iff_eq hq prime_13441).mp h3
          tauto
      · have := (Nat.prime_dvd_prime_iff_eq hq prime_205115282021455665897114700593932402728804164701536103180137503955397371).mp h4
        tauto
    rcases hcase with hc0 | hc1 | hc2 | hc3 | hc4
    all_goals subst_vars
    all_goals rw [zmodPow_eq_powMod _ _ _ (by decide)]
    all_goals decide

instance pPrimeFact : Fact (Nat.Prime p) := ⟨p_prime⟩

theorem pLimbs_val : pLimbs.val = p := by decide

theorem nLimbs_val : nLimbs.val = n := by decide

theorem rInvF_spec : rInvF * ((2 ^ 256 : ℕ) : Fp) = 1 := by decide

theorem rInvN_spec : rInvN * ((2 ^ 256 : ℕ) : Fn) = 1 := by decide

theorem sqIter_pow : ∀ (k : ℕ) (a : Fp), sqIter k a = a ^ (2 ^ k) := by
  intro k
  induction k with
  | zero => intro a; simp [sqIter]
  | succ k ih =>
    intro a
    rw [sqIter, ih (a * a), ← sq, ← pow_mul, pow_succ, Nat.mul_comm]

/-- The addition chain computes exactly `x^(p-2)`. -/
theorem fieldInvert_eq_pow (x : Fp) : fieldInvert x = x ^ (p - 2) := by
  have hp2 : p - 2
      = 0xfffffffffffffffffffffffffffffffffffffffffffffffffffffffefffffc2d := by decide
  simp only [fieldInvert, sqIter_pow, hp2]
  ring

/-- C9 (confirmed): inversion is total in both fields: the chains compute
`x^(q-2)` and `0^(q-2) = 0` since `q - 2 > 0`; there is no error path. -/
theorem invert_totality :
    (∀ x : Fp, fieldInvert x = x ^ (p - 2))
    ∧ fieldInvert 0 = 0 ∧ scalarInvert 0 = 0 := by
  refine ⟨fieldInvert_eq_pow, ?_, ?_⟩
  · rw [fieldInvert_eq_pow 0]
    exact zero_pow (by decide)
  · unfold scalarInvert
    exact zero_pow (by decide)

theorem basePoint_coords :
    basePoint.x = ((0x79be667ef9dcbbac55a06295ce870b07029bfcdb2dce28d959f2815b16f81798 : ℕ) : Fp)
    ∧ basePoint.y = ((0x483ada7726a3c4655da4fbfc0e1108a8fd17b448a68554199c47d08ffb10d4b8 : ℕ) : Fp) := by
  constructor <;> decide

theorem b3F_eq : b3F = 21 := by decide

theorem b7F_eq : b7F = 7 := by decide

/-- Bit `i < 255` produced by `Scalar.Bits` is bit `i` of the canonical value. -/
theorem scalarBits_lt (s : Fn) (i : ℕ) (hi : i < 255) :
    scalarBits s i = s.val / 2 ^ i % 2 := by
  unfold scalarBits
  rw [if_pos hi]
  have hr : i % 64 < 64 := Nat.mod_lt _ (by norm_num)
  have key : ∀ a r : ℕ, r < 64 → a % 2 ^ 64 / 2 ^ r % 2 = a / 2 ^ r % 2 := by
    intro a r hrr
    conv_lhs => rw [Nat.div_mod_eq_mod_mul_div]
    conv_rhs => rw [Nat.div_mod_eq_mod_mul_div]
    rw [Nat.mod_mod_of_dvd]
    have h1 : (2 : ℕ) ^ r * 2 = 2 ^ (r + 1) := (pow_succ 2 r).symm
    rw [h1]
    exact pow_dvd_pow 2 (by omega)
  rw [key (s.val / 2 ^ (64 * (i / 64))) (i % 64) hr]
  rw [Nat.div_div_eq_div_mul, ← pow_add]
  have h64 : 64 * (i / 64) + i % 64 = i := by omega
  rw [h64]

theorem double_identity : doubleProjectiveComplete identityPt = identityPt := by decide

/-- If every bit consumed is zero, the ladder's first register stays at the
identity (it is only ever doubled, and doubling fixes `(0,1,0)`). -/
theorem ladder_zero_bits (bits : ℕ → ℕ) :
    ∀ k st, (∀ j, j < k → bits j = 0) → st.1 = identityPt →
      (ladder bits k st).1 = identityPt := by
  intro k
  induction k with
  | zero => intro st _ h1; exact h1
  | succ k ih =>
    intro st hb h1
    rw [ladder, hb k (Nat.lt_succ_self k), if_pos rfl]
    exact ih _ (fun j hj => hb j (by omega)) (by rw [show (doubleProjectiveComplete st.1,
      addProjectiveComplete st.2 st.1).1 = doubleProjectiveComplete st.1 from rfl, h1,
      double_identity])

/-- C1 (code_bug): `Scalar.Bits` never writes index 255 (`for i := range 255`
iterates `i = 0 … 254`), so for the canonical scalar `2^255 < n`, whose bit 255
is 1, `Bits()[255] = 0`, and `Multiply(G, 2^255)` runs the ladder over an
all-zero bit array and returns the identity instead of `[2^255]G`. -/
theorem multiply_drops_top_bit :
    scalarBits ((2 ^ 255 : ℕ) : Fn) 255 = 0
    ∧ (((2 ^ 255 : ℕ) : Fn)).val / 2 ^ 255 % 2 = 1
    ∧ multiplyPt basePoint (some ((2 ^ 255 : ℕ) : Fn)) = identityPt := by
  refine ⟨by decide, by decide, ?_⟩
  simp only [multiplyPt]
  rw [if_neg (by decide)]
  exact ladder_zero_bits _ 256 _ (by decide) rfl

/-- C10 (confirmed): nil handling of `Add`, `Subtract`, `Multiply`: the first
two leave the receiver unchanged, the last sets it to the identity. -/
theorem nil_operand_semantics (e : Point) :
    addPt e none = e ∧ subtractPt e none = e ∧ multiplyPt e none = identityPt :=
  ⟨rfl, rfl, rfl⟩

theorem two192F_eq : two192F = ((2 ^ 192 : ℕ) : Fp) := by decide

theorem two384F_eq : two384F = ((2 ^ 384 : ℕ) : Fp) := by decide

theorem two192N_eq : two192N = ((2 ^ 192 : ℕ) : Fn) := by decide

theorem two384N_eq : two384N = ((2 ^ 384 : ℕ) : Fn) := by decide

theorem bytesToNat_aux (l : List ℕ) : ∀ acc : ℕ,
    l.foldl (fun a b => 256 * a + b) acc
      = acc * 256 ^ l.length + l.foldl (fun a b => 256 * a + b) 0 := by
  induction l with
  | nil => intro acc; simp
  | cons x xs ih =>
    intro acc
    simp only [List.foldl_cons, List.length_cons]
    rw [ih (256 * acc + x), ih (256 * 0 + x)]
    ring

theorem bytesToNat_append (l₁ l₂ : List ℕ) :
    bytesToNat (l₁ ++ l₂) = bytesToNat l₁ * 256 ^ l₂.length + bytesToNat l₂ := by
  unfold bytesToNat
  rw [List.foldl_append, bytesToNat_aux]

theorem bytesToNat_split (k : ℕ) (l : List ℕ) :
    bytesToNat l = bytesToNat (l.take k) * 256 ^ (l.drop k).length + bytesToNat (l.drop k) := by
  conv_lhs => rw [← List.take_append_drop k l]
  rw [bytesToNat_append]

/-- C5 (confirmed): `HashToFieldElement` on a 48-byte input returns, in both
fields, the element congruent to the big-endian integer value of the input:
the three chunks recombine as `a + b·2^192 + c·2^384` with `c = 0` coming from
the zero padding, and the Montgomery constants are exactly `2^192 mod q` and
`2^384 mod q`. -/
theorem hash_to_field_wide_reduction (input : List ℕ) (h48 : input.length = 48) :
    hashToFieldElementF input = ((bytesToNat input : ℕ) : Fp)
    ∧ hashToFieldElementN input = ((bytesToNat input : ℕ) : Fn) := by
  have h16 : (List.replicate 16 (0 : ℕ)).length = 16 := rfl
  have hd16 : (List.replicate 16 (0 : ℕ) ++ input).drop 16 = input := by
    have := List.drop_left (List.replicate 16 (0 : ℕ)) input
    rwa [h16] at this
  have hd40 : (List.replicate 16 (0 : ℕ) ++ input).drop 40 = input.drop 24 := by
    have : (40 : ℕ) = 16 + 24 := rfl
    rw [this, ← List.drop_drop, hd16]
  have ht16 : (List.replicate 16 (0 : ℕ) ++ input).take 16 = List.replicate 16 0 := by
    have := List.take_left (List.replicate 16 (0 : ℕ)) input
    rwa [h16] at this
  have htk : ((List.replicate 16 (0 : ℕ) ++ input).drop 16).take 24 = input.take 24 := by
    rw [hd16]
  have hzc : bytesToNat (List.replicate 16 (0 : ℕ)) = 0 := by decide
  have hlen : (input.drop 24).length = 24 := by
    rw [List.length_drop, h48]
  have hval : bytesToNat input
      = bytesToNat (input.take 24) * 256 ^ 24 + bytesToNat (input.drop 24) := by
    rw [bytesToNat_split 24 input, hlen]
  have hpow : (256 : ℕ) ^ 24 = 2 ^ 192 := by norm_num
  constructor
  · simp only [hashToFieldElementF]
    rw [hd40, htk, ht16]
    unfold fromBytesNoReduce
    rw [hzc, two192F_eq, hval, hpow]
    push_cast
    ring
  · simp only [hashToFieldElementN]
    rw [hd40, htk, ht16]
    rw [hzc, two192N_eq, hval, hpow]
    push_cast
    ring

/-- Witness for C5 at a concrete 48-byte input. -/
theorem hash_to_field_wide_reduction_witness :
    hashToFieldElementF (List.replicate 48 255) = ((bytesToNat (List.replicate 48 255) : ℕ) : Fp)
    ∧ hashToFieldElementN (List.replicate 48 255) = ((bytesToNat (List.replicate 48 255) : ℕ) : Fn) :=
  hash_to_field_wide_reduction (List.replicate 48 255) (by decide)

theorem bytesToNat_lt_aux (l : List ℕ) : ∀ acc : ℕ, (∀ b ∈ l, b < 256) →
    l.foldl (fun a b => 256 * a + b) acc < (acc + 1) * 256 ^ l.length := by
  induction l with
  | nil => intro acc _; simp
  | cons x xs ih =>
    intro acc hb
    simp only [List.foldl_cons, List.length_cons]
    have hx : x < 256 := hb x (List.mem_cons_self x xs)
    have := ih (256 * acc + x) (fun b hbm => hb b (List.mem_cons_of_mem x hbm))
    calc List.foldl (fun a b => 256 * a + b) (256 * acc + x) xs
        < (256 * acc + x + 1) * 256 ^ xs.length := this
      _ ≤ (acc + 1) * 256 ^ (xs.length + 1) := by
          rw [pow_succ]
          have h1 : 256 * acc + x + 1 ≤ (acc + 1) * 256 := by omega
          calc (256 * acc + x + 1) * 256 ^ xs.length
              ≤ (acc + 1) * 256 * 256 ^ xs.length := Nat.mul_le_mul_right _ h1
            _ = (acc + 1) * (256 ^ xs.length * 256) := by ring

theorem bytesToNat_lt (l : List ℕ) (hb : ∀ b ∈ l, b < 256) :
    bytesToNat l < 256 ^ l.length := by
  have := bytesToNat_lt_aux l 0 hb
  simpa [bytesToNat] using this

/-- On a valid 32-byte string, the four extracted limbs recombine to the
big-endian value of the string. -/
theorem bytesToLimbs_val (input : List ℕ) (h : input.length = 32) :
    (bytesToLimbs input).val = bytesToNat input := by
  have s8 : bytesToNat input
      = bytesToNat (input.take 8) * 256 ^ (input.drop 8).length + bytesToNat (input.drop 8) :=
    bytesToNat_split 8 input
  have s16 : bytesToNat (input.drop 8)
      = bytesToNat ((input.drop 8).take 8) * 256 ^ ((input.drop 8).drop 8).length
        + bytesToNat ((input.drop 8).drop 8) := bytesToNat_split 8 (input.drop 8)
  have s24 : bytesToNat (input.drop 16)
      = bytesToNat ((input.drop 16).take 8) * 256 ^ ((input.drop 16).drop 8).length
        + bytesToNat ((input.drop 16).drop 8) := bytesToNat_split 8 (input.drop 16)
  have d16 : (input.drop 8).drop 8 = input.drop 16 := by rw [List.drop_drop]
  have d24 : (input.drop 16).drop 8 = input.drop 24 := by rw [List.drop_drop]
  have l8 : (input.drop 8).length = 24 := by rw [List.length_drop, h]
  have l16 : (input.drop 16).length = 16 := by rw [List.length_drop, h]
  have l24 : (input.drop 24).length = 8 := by rw [List.length_drop, h]
  rw [d16] at s16
  rw [d24] at s24
  rw [l16] at s16
  rw [l24] at s24
  rw [l8] at s8
  unfold bytesToLimbs Limbs4.val
  simp only
  rw [s8, s16, s24]
  norm_num
  ring

/-- The final borrow of the 4-limb conditional subtraction is 1 exactly when
the input value is below the modulus value. -/
theorem reduce4_borrow (x m : Limbs4)
    (h0 : x.l0 < 2 ^ 64) (h1 : x.l1 < 2 ^ 64) (h2 : x.l2 < 2 ^ 64) (h3 : x.l3 < 2 ^ 64)
    (g0 : m.l0 < 2 ^ 64) (g1 : m.l1 < 2 ^ 64) (g2 : m.l2 < 2 ^ 64) (g3 : m.l3 < 2 ^ 64) :
    (reduce4 x m).2 = if x.val < m.val then 1 else 0 := by
  obtain ⟨x0, x1, x2, x3⟩ := x
  obtain ⟨m0, m1, m2, m3⟩ := m
  simp only [reduce4, sub64, Limbs4.val] at *
  split_ifs <;> omega

/-- If the borrow is set, `Reduce` keeps the input limbs unchanged. -/
theorem reduce4_fst_of_borrow (x m : Limbs4) (h : (reduce4 x m).2 = 1) :
    (reduce4 x m).1 = x := by
  simp only [reduce4, sub64] at h ⊢
  rw [h, if_pos rfl]

/-- The limbs of a valid 32-byte string are below `2^64`. -/
theorem bytesToLimbs_bounded (input : List ℕ) (h : input.length = 32)
    (hb : ∀ b ∈ input, b < 256) :
    (bytesToLimbs input).l0 < 2 ^ 64 ∧ (bytesToLimbs input).l1 < 2 ^ 64
    ∧ (bytesToLimbs input).l2 < 2 ^ 64 ∧ (bytesToLimbs input).l3 < 2 ^ 64 := by
  have sub : ∀ l : List ℕ, l.length ≤ 8 → (∀ b ∈ l, b < 256) → bytesToNat l < 2 ^ 64 := by
    intro l hl hbb
    calc bytesToNat l < 256 ^ l.length := bytesToNat_lt l hbb
      _ ≤ 256 ^ 8 := Nat.pow_le_pow_right (by norm_num) hl
      _ ≤ 2 ^ 64 := by norm_num
  exact ⟨sub _ (by rw [List.length_drop, h]) (fun b hbm => hb b (List.mem_of_mem_drop hbm)),
    sub _ (List.length_take_le 8 _) (fun b hbm => hb b (List.mem_of_mem_drop (List.mem_of_mem_take hbm))),
    sub _ (List.length_take_le 8 _) (fun b hbm => hb b (List.mem_of_mem_drop (List.mem_of_mem_take hbm))),
    sub _ (List.length_take_le 8 _) (fun b hbm => hb b (List.mem_of_mem_take hbm))⟩

/-- Full behavioural specification of `Scalar.Decode` on byte strings. -/
theorem scalarDecode_spec (input : List ℕ) (hb : ∀ b ∈ input, b < 256) :
    (scalarDecode input = .error .nilOrEmpty ↔ input = [])
    ∧ (scalarDecode input = .error .invalidLength ↔ (input ≠ [] ∧ input.length ≠ 32))
    ∧ (scalarDecode input = .error .tooBig ↔ (input.length = 32 ∧ n ≤ bytesToNat input))
    ∧ (input.length = 32 → bytesToNat input < n →
        scalarDecode input = .ok ((bytesToNat input : ℕ) : Fn)) := by
  by_cases hnil : input.length = 0
  · have : input = [] := List.length_eq_zero.mp hnil
    subst this
    refine ⟨by simp [scalarDecode], by simp [scalarDecode], by simp [scalarDecode], by simp⟩
  · by_cases h32 : input.length = 32
    · obtain ⟨b0, b1, b2, b3⟩ := bytesToLimbs_bounded input h32 hb
      have hborrow : (reduce4 (bytesToLimbs input) nLimbs).2
          = if bytesToNat input < n then 1 else 0 := by
        rw [reduce4_borrow _ _ b0 b1 b2 b3 (by decide) (by decide) (by decide) (by decide),
          bytesToLimbs_val input h32, nLimbs_val]
      by_cases hlt : bytesToNat input < n
      · have h2 : (reduce4 (bytesToLimbs input) nLimbs).2 = 1 := by
          rw [hborrow, if_pos hlt]
        have hflag : (reduceBytes input).2 = 1 := by
          simp only [reduceBytes]
          exact h2
        have hval : (reduceBytes input).1 = ((bytesToNat input : ℕ) : Fn) := by
          simp only [reduceBytes]
          rw [reduce4_fst_of_borrow _ _ h2, bytesToLimbs_val input h32]
        have hdef : scalarDecode input = .ok ((bytesToNat input : ℕ) : Fn) := by
          unfold scalarDecode
          rw [if_neg hnil, if_neg (by omega : ¬ input.length ≠ 32),
            if_neg (by rw [hflag]; exact one_ne_zero), hval]
        have hne : input ≠ [] := fun hc => hnil (by rw [hc]; rfl)
        refine ⟨?_, ?_, ?_, fun _ _ => hdef⟩
        · rw [hdef]
          exact ⟨fun hcon => Except.noConfusion hcon, fun hc => absurd hc hne⟩
        · rw [hdef]
          exact ⟨fun hcon => Except.noConfusion hcon, fun hc => absurd h32 hc.2⟩
        · rw [hdef]
          exact ⟨fun hcon => Except.noConfusion hcon, fun hc => absurd hc.2 (by omega)⟩
      · have hflag : (reduceBytes input).2 = 0 := by
          simp only [reduceBytes]
          rw [hborrow, if_neg hlt]
        have hdef : scalarDecode input = .error .tooBig := by
          unfold scalarDecode
          rw [if_neg hnil, if_neg (by omega : ¬ input.length ≠ 32), if_pos hflag]
        have hne : input ≠ [] := fun hc => hnil (by rw [hc]; rfl)
        refine ⟨?_, ?_, ?_, fun _ hcon => absurd hcon hlt⟩
        · simp [hdef, hne]
        · simp [hdef, h32]
        · simp [hdef, h32]
          omega
    · have hdef : scalarDecode input = .error .invalidLength := by
        unfold scalarDecode
        rw [if_neg hnil, if_pos h32]
      have hne : input ≠ [] := fun hc => hnil (by rw [hc]; rfl)
      refine ⟨?_, ?_, ?_, fun hcon => absurd hcon h32⟩
      · simp [hdef, hne]
      · simp [hdef, hne, h32]
      · simp [hdef, h32]

/-- C7 (confirmed): the error taxonomy of `Scalar.Decode`: empty input →
nil-or-empty error; length other than 0 and 32 → length error; 32 bytes with
big-endian value `≥ n` → scalar-too-big; otherwise success with exactly that
value. -/
theorem scalar_decode_errors (input : List ℕ) (hb : ∀ b ∈ input, b < 256) :
    (scalarDecode input = .error .nilOrEmpty ↔ input = [])
    ∧ (scalarDecode input = .error .invalidLength ↔ (input ≠ [] ∧ input.length ≠ 32))
    ∧ (scalarDecode input = .error .tooBig ↔ (input.length = 32 ∧ n ≤ bytesToNat input))
    ∧ (input.length = 32 → bytesToNat input < n →
        scalarDecode input = .ok ((bytesToNat input : ℕ) : Fn)) :=
  scalarDecode_spec input hb

/-- Witness for C7 at the all-zero 32-byte string, which decodes successfully
to the scalar 0. -/
theorem scalar_decode_errors_witness :
    scalarDecode (List.replicate 32 0) = .ok ((bytesToNat (List.replicate 32 0) : ℕ) : Fn) :=
  (scalar_decode_errors (List.replicate 32 0) (by decide)).2.2.2 (by decide) (by decide)

/-- C4 (confirmed): the canonical identity satisfies the invariant, and both
complete formulas (pure straight-line code, no branching) preserve it. The
ideal-membership cofactors were computed by polynomial division modulo the two
curve relations, whose leading monomials are coprime. -/
theorem complete_formulas_preserve_curve :
    onCurveInv identityPt ∧
    ∀ u v : Point, onCurveInv u → onCurveInv v →
      onCurveInv (addProjectiveComplete u v) ∧ onCurveInv (doubleProjectiveComplete u) := by
  refine ⟨by decide, fun u v hu hv => ⟨?_, ?_⟩⟩
  · simp only [addProjectiveComplete, onCurveInv, b3F_eq] at *
    linear_combination
      (u.y ^ 3 * v.y ^ 6 + (-441) * u.y ^ 3 * v.y ^ 2 * v.z ^ 4 + (126) * u.y ^ 3 * v.x ^ 3 * v.y ^ 2 * v.z + (-2205) * u.y ^ 2 * u.z * v.y ^ 3 * v.z ^ 3 + (63) * u.y ^ 2 * u.z * v.x ^ 3 * v.y ^ 3 + (378) * u.x * u.y ^ 2 * v.x ^ 2 * v.y ^ 3 * v.z + (-9261) * u.y ^ 2 * u.z * v.y * v.z ^ 5 + (-5292) * u.y ^ 2 * u.z * v.x ^ 3 * v.y * v.z ^ 2 + (-7938) * u.x * u.y ^ 2 * v.x ^ 2 * v.y * v.z ^ 3 + (-2205) * u.y * u.z ^ 2 * v.y ^ 4 * v.z ^ 2 + (189) * u.x * u.y * u.z * v.x ^ 2 * v.y ^ 4 + (378) * u.x ^ 2 * u.y * v.x * v.y ^ 4 * v.z + (-49392) * u.y * u.z ^ 2 * v.y ^ 2 * v.z ^ 4 + (-4410) * u.y * u.z ^ 2 * v.x ^ 3 * v.y ^ 2 * v.z + (-23814) * u.x * u.y * u.z * v.x ^ 2 * v.y ^ 2 * v.z ^ 2 + (-10584) * u.x ^ 2 * u.y * v.x * v.y ^ 2 * v.z ^ 3 + (189) * u.x ^ 2 * u.y * v.x ^ 4 * v.y ^ 2 + (-64827) * u.y * u.z ^ 2 * v.z ^ 6 + (74088) * u.y * u.z ^ 2 * v.x ^ 3 * v.z ^ 3 + (83349) * u.x * u.y * u.z * v.x ^ 2 * v.z ^ 4 + (55566) * u.x ^ 2 * u.y * v.x * v.z ^ 5 + (-3969) * u.x ^ 2 * u.y * v.x ^ 4 * v.z ^ 2 + (-441) * u.z ^ 3 * v.y ^ 5 * v.z + (126) * u.x ^ 3 * v.y ^ 5 * v.z + (-61740) * u.z ^ 3 * v.y ^ 3 * v.z ^ 3 + (-882) * u.z ^ 3 * v.x ^ 3 * v.y ^ 3 + (-7938) * u.x * u.z ^ 2 * v.x ^ 2 * v.y ^ 3 * v.z + (-23814) * u.x ^ 2 * u.z * v.x * v.y ^ 3 * v.z ^ 2 + (-7497) * u.x ^ 3 * v.y ^ 3 * v.z ^ 3 + (63) * u.x ^ 3 * v.x ^ 3 * v.y ^ 3 + (-64827) * u.z ^ 3 * v.y * v.z ^ 5 + (74088) * u.z ^ 3 * v.x ^ 3 * v.y * v.z ^ 2 + (166698) * u.x * u.z ^ 2 * v.x ^ 2 * v.y * v.z ^ 3 + (166698) * u.x ^ 2 * u.z * v.x * v.y * v.z ^ 4 + (46305) * u.x ^ 3 * v.y * v.z ^ 5 + (-5292) * u.x ^ 3 * v.x ^ 3 * v.y * v.z ^ 2) * hu +
      (u.y ^ 6 * v.y ^ 3 + (189) * u.x ^ 2 * u.y ^ 4 * v.x * v.y * v.z + (63) * u.x ^ 3 * u.y ^ 3 * v.y ^ 2 * v.z + (-1323) * u.x ^ 3 * u.y ^ 3 * v.z ^ 3 + (189) * u.x ^ 3 * u.y ^ 3 * v.x ^ 3 + (567) * u.x ^ 4 * u.y ^ 2 * v.x ^ 2 * v.y + (-24696) * u.y * u.z ^ 5 * v.y ^ 2 * v.z + (-5292) * u.x ^ 2 * u.y * u.z ^ 3 * v.x * v.y ^ 2 + (-7497) * u.x ^ 3 * u.y * u.z ^ 2 * v.y ^ 2 * v.z + (378) * u.x ^ 5 * u.y * v.x * v.y ^ 2 + (-518616) * u.y * u.z ^ 5 * v.z ^ 3 + (111132) * u.x ^ 2 * u.y * u.z ^ 3 * v.x * v.z ^ 2 + (9261) * u.x ^ 3 * u.y * u.z ^ 2 * v.z ^ 3 + (-11907) * u.x ^ 3 * u.y * u.z ^ 2 * v.x ^ 3 + (-23814) * u.x ^ 4 * u.y * u.z * v.x ^ 2 * v.z + (-7938) * u.x ^ 5 * u.y * v.x * v.z ^ 2 + (-3087) * u.z ^ 6 * v.y ^ 3 + (441) * u.x ^ 3 * u.z ^ 3 * v.y ^ 3 + (126) * u.x ^ 6 * v.y ^ 3 + (-518616) * u.z ^ 6 * v.y * v.z ^ 2 + (-83349) * u.x ^ 2 * u.z ^ 4 * v.x * v.y * v.z + (-37044) * u.x ^ 3 * u.z ^ 3 * v.y * v.z ^ 2 + (-11907) * u.x ^ 4 * u.z ^ 2 * v.x ^ 2 * v.y + (-23814) * u.x ^ 5 * u.z * v.x * v.y * v.z + (-6615) * u.x ^ 6 * v.y * v.z ^ 2) * hv
  · simp only [doubleProjectiveComplete, onCurveInv, b3F_eq] at *
    linear_combination
      ((8) * u.y ^ 9 + (-1512) * u.y ^ 7 * u.z ^ 2 + (95256) * u.y ^ 5 * u.z ^ 4 + (-2000376) * u.y ^ 3 * u.z ^ 6) * hu

/-- Witness for C4: the invariant holds after adding and doubling the
generator. -/
theorem complete_formulas_preserve_curve_witness :
    onCurveInv (addProjectiveComplete basePoint basePoint)
    ∧ onCurveInv (doubleProjectiveComplete basePoint) :=
  complete_formulas_preserve_curve.2 basePoint basePoint (by decide) (by decide)

theorem natToBytesBE_length : ∀ (k v : ℕ), (natToBytesBE k v).length = k := by
  intro k
  induction k with
  | zero => intro v; rfl
  | succ k ih =>
    intro v
    rw [natToBytesBE, List.length_append, ih]
    rfl

/-- C8 counterexample: at the identity, `Encode()` is the single byte `0x00`,
so `encode(P)[1:]` is empty, while `encode_uncompressed(P)[1:33]` is the
32-byte encoding of the sentinel affine x-coordinate 0. -/
theorem encode_tail_mismatch_at_identity :
    (encodeEl identityPt).drop 1 ≠ ((fillUncompressed identityPt).drop 1).take 32 := by decide

/-- C8 (corrected): for every point the uncompressed encoding starts with
`0x04` and `x_coordinate = encode[1:]`; for non-identity points these also
equal `encode_uncompressed[1:33]`, but for the identity `encode[1:]` is empty
while `encode_uncompressed[1:33]` has 32 bytes. -/
theorem encode_header_and_x_coordinate (e : Point) :
    (fillUncompressed e).headI = 4
    ∧ xCoordinate e = (encodeEl e).drop 1
    ∧ (e.z ≠ 0 → (encodeEl e).drop 1 = ((fillUncompressed e).drop 1).take 32)
    ∧ (e.z = 0 → (encodeEl e).drop 1 = []) := by
  refine ⟨rfl, rfl, ?_, ?_⟩
  · intro hz
    have hiz : isZeroF e.z = 0 := by
      unfold isZeroF
      rw [if_neg hz]
    have hlen : (fpBytes (affinePt e).1).length = 32 := natToBytesBE_length 32 _
    simp only [encodeEl, fillUncompressed, hiz]
    norm_num
    exact Or.inr (le_of_eq hlen.symm)
  · intro hz
    have hiz : isZeroF e.z = 1 := by
      unfold isZeroF
      rw [if_pos hz]
    simp [encodeEl, hiz]

/-- Witness for C8 at the generator (a non-identity point). -/
theorem encode_header_and_x_coordinate_witness :
    (encodeEl basePoint).drop 1 = ((fillUncompressed basePoint).drop 1).take 32 :=
  (encode_header_and_x_coordinate basePoint).2.2.1 (by decide)

theorem pMin3Div4_eq : pMin3Div4 = (p - 3) / 4 := by decide

theorem c2F_sq : c2F * c2F = 11 := by decide

theorem equalsF_eq_one_iff (a b : Fp) : equalsF a b = 1 ↔ a = b := by
  unfold equalsF
  split_ifs with h <;> simp [h]

/-- Full behavioural specification of `SqrtRatio`. -/
theorem sqrtRatio_spec (u v : Fp) :
    ((sqrtRatio u v).2 = 1 ↔ ∃ r : Fp, r ^ 2 * v = u)
    ∧ ((sqrtRatio u v).2 = 1 → ((sqrtRatio u v).1) ^ 2 * v = u)
    ∧ (v ≠ 0 → ((sqrtRatio u v).2 = 1 ↔ IsSquare (u / v))) := by
  have hiff : (sqrtRatio u v).2 = 1 ↔ ∃ r : Fp, r ^ 2 * v = u := by
    simp only [sqrtRatio]
    rw [equalsF_eq_one_iff]
    constructor
    · intro h
      exact ⟨expPMin3Div4 (v * v * (u * v)) * (u * v), by rw [sq]; exact h⟩
    · rintro ⟨r, hr⟩
      by_cases hv : v = 0
      · subst hv
        rw [mul_zero] at hr ⊢
        exact hr.symm ▸ rfl
      · by_cases hu : u = 0
        · subst hu
          simp [expPMin3Div4, zero_pow (show pMin3Div4 ≠ 0 from by decide)]
        · have hrne : r ≠ 0 := by
            intro hc
            rw [hc] at hr
            simp at hr
            exact hu hr.symm
          have hs : r * v ^ 2 ≠ 0 := mul_ne_zero hrne (pow_ne_zero 2 hv)
          have hw : v * v * (u * v) = (r * v ^ 2) ^ 2 := by
            rw [← hr]; ring
          rw [hw]
          simp only [expPMin3Div4]
          have h1 : (((r * v ^ 2) ^ 2) ^ pMin3Div4) ^ 2 = (r * v ^ 2) ^ (p - 3) := by
            rw [← pow_mul, ← pow_mul]
            congr 1
          have fermat : (r * v ^ 2) ^ (p - 3) * (r * v ^ 2) ^ 2 = 1 := by
            rw [← pow_add, show p - 3 + 2 = p - 1 from by decide]
            exact ZMod.pow_card_sub_one_eq_one hs
          have expand : ((r * v ^ 2) ^ 2) ^ pMin3Div4 * (u * v)
              * (((r * v ^ 2) ^ 2) ^ pMin3Div4 * (u * v)) * v
              = (r * v ^ 2) ^ (p - 3) * (u ^ 2 * v ^ 3) := by
            rw [← h1]; ring
          have huv : u ^ 2 * v ^ 3 = u * (r * v ^ 2) ^ 2 := by
            rw [← hr]; ring
          rw [expand, huv, show (r * v ^ 2) ^ (p - 3) * (u * (r * v ^ 2) ^ 2)
            = u * ((r * v ^ 2) ^ (p - 3) * (r * v ^ 2) ^ 2) from by ring, fermat, mul_one]
  refine ⟨hiff, ?_, ?_⟩
  · intro h
    have hflag := h
    simp only [sqrtRatio] at hflag ⊢
    rw [hflag]
    have heq := (equalsF_eq_one_iff _ _).mp hflag
    show (cmove 1 _ _) ^ 2 * v = u
    unfold cmove
    rw [if_neg one_ne_zero, sq]
    exact heq
  · intro hv
    rw [hiff]
    constructor
    · rintro ⟨r, hr⟩
      exact ⟨r, by field_simp [← hr]; ring⟩
    · rintro ⟨t, ht⟩
      refine ⟨t, ?_⟩
      rw [sq, ← ht]
      field_simp

/-- C3 (confirmed): `sqrt_ratio(u, v)` flags exactly the pairs whose ratio is
a square — `is_qr = 1` iff some `r` satisfies `r² v = u` (for `v ≠ 0` this is
equivalent to `u / v` being a square) — and whenever `is_qr = 1` the returned
root satisfies `root² · v = u`. -/
theorem sqrt_ratio_correct (u v : Fp) :
    ((sqrtRatio u v).2 = 1 ↔ ∃ r : Fp, r ^ 2 * v = u)
    ∧ ((sqrtRatio u v).2 = 1 → ((sqrtRatio u v).1) ^ 2 * v = u)
    ∧ (v ≠ 0 → ((sqrtRatio u v).2 = 1 ↔ IsSquare (u / v))) :=
  sqrtRatio_spec u v

/-- Witness for C3's `v ≠ 0` conjunct at `u = 4`, `v = 1`. -/
theorem sqrt_ratio_correct_witness :
    (sqrtRatio 4 1).2 = 1 ↔ IsSquare ((4 : Fp) / 1) :=
  (sqrt_ratio_correct 4 1).2.2 one_ne_zero

/-! ### The 3-isogeny map (src/unnamed/part_012, `IsogenySecp256k13iso`) -/
/-- The chain inversion is field inversion (`x⁻¹`, with `0⁻¹ = 0`). -/
theorem fieldInvert_eq_inv (x : Fp) : fieldInvert x = x⁻¹ := by
  rw [fieldInvert_eq_pow]
  by_cases hx : x = 0
  · subst hx
    rw [zero_pow (by decide : p - 2 ≠ 0), inv_zero]
  · have h1 : x ^ (p - 2) * x = 1 := by
      rw [← pow_succ, show p - 2 + 1 = p - 1 from by decide]
      exact ZMod.pow_card_sub_one_eq_one hx
    have h2 := congrArg (fun t => t * x⁻¹) h1
    simp only [mul_assoc, mul_inv_cancel₀ hx, mul_one, one_mul] at h2
    exact h2

/-- C6 (confirmed): the isogeny returns the canonical identity exactly when
either denominator vanishes, and otherwise the affine point
`(x_num/x_den, y'·y_num/y_den)` with `z = 1`. -/
theorem isogeny_cases (e : Point) :
    ((e.x * e.x + k21F * e.x + k20F = 0
        ∨ e.x * e.x * e.x + k42F * (e.x * e.x) + k41F * e.x + k40F = 0)
      → isogenySecp256k13iso e = identityPt)
    ∧ (e.x * e.x + k21F * e.x + k20F ≠ 0
      → e.x * e.x * e.x + k42F * (e.x * e.x) + k41F * e.x + k40F ≠ 0
      → isogenySecp256k13iso e
        = ⟨(k13F * (e.x * e.x * e.x) + k12F * (e.x * e.x) + k11F * e.x + k10F)
            / (e.x * e.x + k21F * e.x + k20F),
           e.y * (k33F * (e.x * e.x * e.x) + k32F * (e.x * e.x) + k31F * e.x + k30F)
            / (e.x * e.x * e.x + k42F * (e.x * e.x) + k41F * e.x + k40F),
           1⟩) := by
  have hxassoc : e.x * e.x + k21F * e.x + k20F = e.x * e.x + k21F * e.x + k20F := rfl
  constructor
  · intro hz
    simp only [isogenySecp256k13iso, fieldInvert_eq_inv]
    have hflag : isZeroF (e.x * e.x + k21F * e.x + k20F)⁻¹
        ||| isZeroF (e.x * e.x * e.x + k42F * (e.x * e.x) + k41F * e.x + k40F) = 1 := by
      rcases hz with h | h
      · rw [h, inv_zero]
        unfold isZeroF
        rw [if_pos rfl]
        split_ifs <;> rfl
      · rw [h]
        unfold isZeroF
        rw [if_pos rfl]
        split_ifs <;> rfl
    rw [hflag]
    rfl
  · intro hx hy
    simp only [isogenySecp256k13iso, fieldInvert_eq_inv]
    have hflag : isZeroF (e.x * e.x + k21F * e.x + k20F)⁻¹
        ||| isZeroF (e.x * e.x * e.x + k42F * (e.x * e.x) + k41F * e.x + k40F) = 0 := by
      unfold isZeroF
      rw [if_neg (inv_ne_zero hx), if_neg hy]
      rfl
    rw [hflag]
    unfold cmove
    rw [if_pos rfl, if_pos rfl, if_pos rfl, Point.mk.injEq]
    refine ⟨?_, ?_, rfl⟩
    · rw [div_eq_mul_inv]
    · rw [mul_div_assoc, div_eq_mul_inv, mul_assoc]

/-- Witness for C6 at the point `(0, 1, 1)`: both denominators are nonzero at
`x' = 0`, so the isogeny yields the generic image. -/
theorem isogeny_cases_witness :
    isogenySecp256k13iso ⟨0, 1, 1⟩
      = ⟨(k13F * (0 * 0 * 0) + k12F * (0 * 0) + k11F * 0 + k10F) / (0 * 0 + k21F * 0 + k20F),
         1 * (k33F * (0 * 0 * 0) + k32F * (0 * 0) + k31F * 0 + k30F) / (0 * 0 * 0 + k42F * (0 * 0) + k41F * 0 + k40F),
         1⟩ :=
  (isogeny_cases ⟨0, 1, 1⟩).2 (by decide) (by decide)

theorem natToBytesBE_lt : ∀ (k v : ℕ), ∀ b ∈ natToBytesBE k v, b < 256 := by
  intro k
  induction k with
  | zero => intro v b hb; simp [natToBytesBE] at hb
  | succ k ih =>
    intro v b hb
    rw [natToBytesBE] at hb
    rcases List.mem_append.mp hb with h | h
    · exact ih (v / 256) b h
    · rw [List.mem_singleton.mp h]
      exact Nat.mod_lt _ (by norm_num)

theorem bytesToNat_natToBytesBE : ∀ (k v : ℕ), v < 256 ^ k →
    bytesToNat (natToBytesBE k v) = v := by
  intro k
  induction k with
  | zero =>
    intro v hv
    interval_cases v
    rfl
  | succ k ih =>
    intro v hv
    have hdiv : v / 256 < 256 ^ k := by
      have h2 : (256 : ℕ) ^ (k + 1) = 256 ^ k * 256 := pow_succ 256 k
      omega
    rw [natToBytesBE, bytesToNat_append, ih (v / 256) hdiv]
    show v / 256 * 256 ^ (1 : ℕ) + bytesToNat [v % 256] = v
    have hone : bytesToNat [v % 256] = v % 256 := by
      unfold bytesToNat
      simp
    rw [hone, pow_one]
    omega

/-- Reading back the 32-byte big-endian encoding of a canonical field element
recovers the element with the canonical flag set. -/
theorem fromBytesWithReduce_fpBytes (a : Fp) : fromBytesWithReduce (fpBytes a) = (a, 1) := by
  have hlen : (fpBytes a).length = 32 := natToBytesBE_length 32 _
  have hbnd : ∀ b ∈ fpBytes a, b < 256 := natToBytesBE_lt 32 _
  have hvlt : a.val < p := ZMod.val_lt a
  have hval : bytesToNat (fpBytes a) = a.val :=
    bytesToNat_natToBytesBE 32 a.val (lt_trans hvlt (by decide))
  obtain ⟨b0, b1, b2, b3⟩ := bytesToLimbs_bounded (fpBytes a) hlen hbnd
  have hborrow : (reduce4 (bytesToLimbs (fpBytes a)) pLimbs).2 = 1 := by
    rw [reduce4_borrow _ _ b0 b1 b2 b3 (by decide) (by decide) (by decide) (by decide),
      bytesToLimbs_val _ hlen, hval, pLimbs_val, if_pos hvlt]
  have hfst : (reduce4 (bytesToLimbs (fpBytes a)) pLimbs).1 = bytesToLimbs (fpBytes a) :=
    reduce4_fst_of_borrow _ _ hborrow
  simp only [fromBytesWithReduce]
  rw [hfst, hborrow, bytesToLimbs_val _ hlen, hval, ZMod.natCast_rightInverse a]

/-- C2, scalar half, as a standalone lemma. -/
theorem scalar_roundtrip (s : Fn) : scalarDecode (scalarEncode s) = .ok s := by
  have hlen : (scalarEncode s).length = 32 := natToBytesBE_length 32 _
  have hbnd : ∀ b ∈ scalarEncode s, b < 256 := natToBytesBE_lt 32 _
  have hvlt : s.val < n := ZMod.val_lt s
  have hval : bytesToNat (scalarEncode s) = s.val :=
    bytesToNat_natToBytesBE 32 s.val (lt_trans hvlt (by decide))
  have h := (scalarDecode_spec (scalarEncode s) hbnd).2.2.2 hlen (by rw [hval]; exact hvlt)
  rw [h, hval, ZMod.natCast_rightInverse s]

/-- On a non-identity point, `affine` returns `(Z⁻¹X, Z⁻¹Y)`. -/
theorem affinePt_spec (e : Point) (hz : e.z ≠ 0) :
    affinePt e = (e.z⁻¹ * e.x, e.z⁻¹ * e.y) := by
  have hiz : isZeroF e.z = 0 := by
    unfold isZeroF
    rw [if_neg hz]
  simp only [affinePt, hiz, fieldInvert_eq_inv, cmove, if_true]

/-- On a non-identity point, `Encode` is the parity prefix and the affine x. -/
theorem encodeEl_nonid (e : Point) (hz : e.z ≠ 0) :
    encodeEl e = (if sgn0 (affinePt e).2 = 1 then 3 else 2) :: fpBytes (affinePt e).1 := by
  have hiz : isZeroF e.z = 0 := by
    unfold isZeroF
    rw [if_neg hz]
  simp only [encodeEl, hiz]
  norm_num
  simp [fpBytes, natToBytesBE_length]

/-- The affine coordinates of an on-curve point satisfy `y² = x³ + 7`. -/
theorem affine_on_curve (e : Point) (hz : e.z ≠ 0) (hc : onCurveInv e) :
    (e.z⁻¹ * e.y) * (e.z⁻¹ * e.y) = secp256Polynomial (e.z⁻¹ * e.x) := by
  unfold secp256Polynomial
  rw [b7F_eq]
  unfold onCurveInv at hc
  have hw : e.z⁻¹ * e.z = 1 := inv_mul_cancel₀ hz
  linear_combination (e.z⁻¹ ^ 3) * hc
    + (-(e.z⁻¹ ^ 2 * e.y ^ 2) + 7 * (e.z⁻¹ ^ 2 * e.z ^ 2) + 7 * (e.z⁻¹ * e.z) + 7) * hw

/-- Negation flips the parity of a nonzero element (since `p` is odd). -/
theorem sgn0_neg (a : Fp) (ha : a ≠ 0) : sgn0 (-a) = 1 - sgn0 a := by
  unfold sgn0
  rw [ZMod.neg_val, if_neg ha]
  have hvlt : a.val < p := ZMod.val_lt a
  have hv1 : 1 ≤ a.val := by
    rcases Nat.eq_zero_or_pos a.val with h0 | h1
    · exact absurd ((ZMod.val_eq_zero a).mp h0) ha
    · exact h1
  have hodd : p % 2 = 1 := by decide
  omega

/-- Sign selection of the compressed decoder: given a square root `yy` of the
same value as `aa`, choosing the sign by parity of the prefix recovers `aa`. -/
theorem sign_select (yy aa : Fp) (hsq : yy ^ 2 = aa * aa) :
    cmove (sgn0 yy ^^^ (if sgn0 aa = 1 then 3 else 2) % 2) yy (-yy) = aa := by
  have hsgn : sgn0 aa = 0 ∨ sgn0 aa = 1 := by
    unfold sgn0
    omega
  have hpm : (if sgn0 aa = 1 then 3 else 2) % 2 = sgn0 aa := by
    rcases hsgn with h1 | h1 <;> rw [h1] <;> norm_num
  rw [hpm]
  have hfac : (yy - aa) * (yy + aa) = 0 := by
    linear_combination hsq
  rcases mul_eq_zero.mp hfac with hca | hca
  · rw [sub_eq_zero.mp hca, Nat.xor_self]
    unfold cmove
    rw [if_pos rfl]
  · have hyay : yy = -aa := eq_neg_of_add_eq_zero_left hca
    by_cases hay0 : aa = 0
    · rw [hay0] at hyay ⊢
      rw [hyay, neg_zero]
      have hs0 : sgn0 (0 : Fp) = 0 := by
        unfold sgn0
        rw [ZMod.val_zero]
      rw [hs0, Nat.xor_self]
      unfold cmove
      rw [if_pos rfl]
    · have hsy : sgn0 yy = 1 - sgn0 aa := by
        rw [hyay]
        exact sgn0_neg aa hay0
      have hxor : sgn0 yy ^^^ sgn0 aa = 1 := by
        rw [hsy]
        rcases hsgn with h1 | h1 <;> rw [h1] <;> rfl
      rw [hxor]
      unfold cmove
      rw [if_neg one_ne_zero, hyay, neg_neg]

/-- C2, element half, as a standalone lemma: decoding the encoding of the
identity or of an on-curve point succeeds and is the same group element in
the library's projective equality. -/
theorem element_roundtrip (P : Point) (h : P.z = 0 ∨ onCurveInv P) :
    ∃ Q : Point, elementDecode (encodeEl P) = some Q ∧ isEqualPt Q P = 1 := by
  by_cases hz : P.z = 0
  · refine ⟨identityPt, ?_, ?_⟩
    · have hiz : isZeroF P.z = 1 := by
        unfold isZeroF
        rw [if_pos hz]
      have henc : encodeEl P = [0] := by
        simp [encodeEl, hiz]
      rw [henc]
      rfl
    · unfold isEqualPt identityPt
      simp [hz]
  · have hc : onCurveInv P := h.resolve_left hz
    have haff := affinePt_spec P hz
    have haoc : (P.z⁻¹ * P.y) * (P.z⁻¹ * P.y) = secp256Polynomial (P.z⁻¹ * P.x) :=
      affine_on_curve P hz hc
    have henc : encodeEl P
        = (if sgn0 (P.z⁻¹ * P.y) = 1 then 3 else 2) :: fpBytes (P.z⁻¹ * P.x) := by
      rw [encodeEl_nonid P hz, haff]
    have hlen : ((if sgn0 (P.z⁻¹ * P.y) = 1 then 3 else 2) :: fpBytes (P.z⁻¹ * P.x)).length
        = 33 := by
      simp [fpBytes, natToBytesBE_length]
    have hsq2 : (sqrtRatio (secp256Polynomial (P.z⁻¹ * P.x)) 1).2 = 1 :=
      (sqrtRatio_spec _ 1).1.mpr ⟨P.z⁻¹ * P.y, by rw [mul_one, pow_two]; exact haoc⟩
    have hroot : ((sqrtRatio (secp256Polynomial (P.z⁻¹ * P.x)) 1).1) ^ 2 * 1
        = secp256Polynomial (P.z⁻¹ * P.x) := (sqrtRatio_spec _ 1).2.1 hsq2
    have hsgn : sgn0 (P.z⁻¹ * P.y) = 0 ∨ sgn0 (P.z⁻¹ * P.y) = 1 := by
      unfold sgn0
      omega
    have hy2 : ((sqrtRatio (secp256Polynomial (P.z⁻¹ * P.x)) 1).1) ^ 2
        = (P.z⁻¹ * P.y) * (P.z⁻¹ * P.y) := by
      rw [mul_one] at hroot
      rw [hroot, haoc]
    have hysel := sign_select ((sqrtRatio (secp256Polynomial (P.z⁻¹ * P.x)) 1).1)
      (P.z⁻¹ * P.y) hy2
    refine ⟨⟨P.z⁻¹ * P.x, P.z⁻¹ * P.y, 1⟩, ?_, ?_⟩
    · rw [henc]
      unfold elementDecode
      rw [if_neg (by rw [hlen]; norm_num), if_pos hlen]
      unfold decodeCompressed
      rw [if_neg (not_not_intro hlen)]
      have hhead : ((if sgn0 (P.z⁻¹ * P.y) = 1 then 3 else 2) :: fpBytes (P.z⁻¹ * P.x)).headI
          = (if sgn0 (P.z⁻¹ * P.y) = 1 then 3 else 2) := rfl
      rw [if_neg (by
        rw [hhead]
        rcases hsgn with h1 | h1 <;> rw [h1] <;> norm_num)]
      have hdrop : ((if sgn0 (P.z⁻¹ * P.y) = 1 then 3 else 2) :: fpBytes (P.z⁻¹ * P.x)).drop 1
          = fpBytes (P.z⁻¹ * P.x) := rfl
      rw [hdrop, fromBytesWithReduce_fpBytes]
      rw [if_neg (show ¬ ((P.z⁻¹ * P.x, (1 : ℕ)).2 = 0) from by norm_num)]
      rw [show ((P.z⁻¹ * P.x, (1 : ℕ)).1) = P.z⁻¹ * P.x from rfl]
      rw [if_neg (not_not_intro hsq2)]
      rw [hhead, hysel]
    · unfold isEqualPt
      have h1 : P.z⁻¹ * P.x * P.z = P.x * 1 := by
        field_simp
      have h2 : P.z⁻¹ * P.y * P.z = P.y * 1 := by
        field_simp
      rw [h1, h2, if_pos rfl, if_pos rfl]

/-- C2 (confirmed): both round trips: `Scalar.Decode(s.Encode()) = s` exactly,
and `Element.Decode(P.Encode())` succeeds for the identity and for on-curve
points, returning the same group element under the library's projective
equality (`Equal`). -/
theorem decode_encode_roundtrip :
    (∀ s : Fn, scalarDecode (scalarEncode s) = .ok s)
    ∧ (∀ P : Point, P.z = 0 ∨ onCurveInv P →
        ∃ Q : Point, elementDecode (encodeEl P) = some Q ∧ isEqualPt Q P = 1) :=
  ⟨scalar_roundtrip, element_roundtrip⟩

/-- Witness for C2 at the generator: its encoding decodes to an equal point. -/
theorem decode_encode_roundtrip_witness :
    ∃ Q : Point, elementDecode (encodeEl basePoint) = some Q ∧ isEqualPt Q basePoint = 1 :=
  decode_encode_roundtrip.2 basePoint (Or.inr (by decide))

end Secp256k1

